import Mathlib

/-!
Verification development for the streaming collection-and-classification
pipeline of `Twitter_Sentiment_Analysis.py`.

The embedding below translates the pipeline's source code into Lean:

* `clean_tweet` embeds the four `re.sub` passes of the Python
  `clean_tweet` (lines 23-28), operating on `List Char`.  Python's `\w`
  is modelled over its ASCII core (letters, digits, underscore) since the
  program fetches English-language items; `.` in the `www.` alternative
  matches any character except a newline, exactly as in Python's `re`.
* The aggregator `get_tweets_and_sentiment` (lines 48-89) is embedded
  with the external collaborators replaced by oracle data: the
  authenticated session is an `Option` (as `setup_twitter` returns
  `None` on failure), the data source behind `Cursor(api.search, ...)`
  is a list of `Item`s consumed in page-sized chunks (the Fetcher
  abstraction), and TextBlob's sentence segmentation / polarity scoring
  is recorded on each item as a list of sentence outcomes (a rational
  polarity, or the point where the library raises).  Polarities are
  rationals: only their comparison with zero is ever used.
* The unbounded `while` loop is given explicit fuel; `none` means the
  loop has not terminated within the given fuel (for every fuel).
-/

namespace TwitterSA

/-- ASCII core of Python's `\w` character class: letters, digits, underscore. -/
def isWordChar (c : Char) : Bool :=
  c.isAlphanum || c == '_'

/-- Match `\w+` at the head of the input: requires at least one word
character, greedily consumes the maximal run, returns the rest. -/
def matchWordRun : List Char → Option (List Char)
  | [] => none
  | c :: cs => if isWordChar c then some (cs.dropWhile isWordChar) else none

/-- Match the `@\w+` alternative of the first `re.sub` pattern. -/
def matchMention : List Char → Option (List Char)
  | '@' :: rest => matchWordRun rest
  | _ => none

/-- Match the `https://\w+` alternative of the first `re.sub` pattern. -/
def matchHttps : List Char → Option (List Char)
  | 'h' :: 't' :: 't' :: 'p' :: 's' :: ':' :: '/' :: '/' :: rest => matchWordRun rest
  | _ => none

/-- Match the `www.\w+` alternative of the first `re.sub` pattern.  The
unescaped `.` matches any character except a newline. -/
def matchWww : List Char → Option (List Char)
  | 'w' :: 'w' :: 'w' :: c :: rest =>
      if c = '\n' then none else matchWordRun rest
  | _ => none

/-- Try the three alternatives of `@\w+|https://\w+|www.\w+` in order at
the current position, as Python's leftmost-first alternation does. -/
def matchStep1 (cs : List Char) : Option (List Char) :=
  match matchMention cs with
  | some rest => some rest
  | none =>
    match matchHttps cs with
    | some rest => some rest
    | none => matchWww cs

/-- Scanner for `sub(r'@\w+|https://\w+|www.\w+', '', tweet)`: at each
position try a match (deleting it) else keep the character and advance.
Every match consumes at least one character, so fuel equal to the length
of the input makes the recursion structural without changing the result. -/
def subUrlsAux : Nat → List Char → List Char
  | _, [] => []
  | 0, c :: cs => c :: cs
  | fuel + 1, c :: cs =>
    match matchStep1 (c :: cs) with
    | some rest => subUrlsAux fuel rest
    | none => c :: subUrlsAux fuel cs

/-- `sub(r'@\w+|https://\w+|www.\w+', '', tweet)`. -/
def subUrls (cs : List Char) : List Char :=
  subUrlsAux cs.length cs

/-- Scanner for `sub(r'\W+', ' ', ...)`: a maximal run of non-word
characters becomes a single space.  The flag records whether we are
inside a non-word run (whose first character already emitted the space). -/
def collapseAux : Bool → List Char → List Char
  | _, [] => []
  | inRun, c :: cs =>
    if isWordChar c then c :: collapseAux false cs
    else if inRun then collapseAux true cs
    else ' ' :: collapseAux true cs

/-- `sub(r'\W+', ' ', ...)`. -/
def collapseNonWord (cs : List Char) : List Char :=
  collapseAux false cs

/-- `sub(r'#', '', ...)`: delete every hash character. -/
def removeHash (cs : List Char) : List Char :=
  cs.filter (fun c => !(c == '#'))

/-- `sub(r'RT', '', ...)`: delete the non-overlapping occurrences of the
two-character sequence `RT`, scanning left to right. -/
def removeRT : List Char → List Char
  | [] => []
  | [c] => [c]
  | c :: d :: cs =>
    if c == 'R' && d == 'T' then removeRT cs
    else c :: removeRT (d :: cs)

/-- The four passes of `clean_tweet`, in source order. -/
def cleanList (cs : List Char) : List Char :=
  removeRT (removeHash (collapseNonWord (subUrls cs)))

/-- `clean_tweet` from the source (lines 23-28). -/
def clean_tweet (tweet : String) : String :=
  String.mk (cleanList tweet.data)

/-!
## The aggregation pipeline

`get_tweets_and_sentiment` (lines 48-89).  External collaborators are
oracle data: each fetched item records the raw text together with the
outcomes the sentiment library would produce on its cleaned form —
either the construction/segmentation raises before any sentence is
scored (`segFault`), or a list of per-sentence outcomes, each a scored
polarity or the point where scoring raises (`SentStep.fail`).
-/

/-- Outcome of processing one sentence of a cleaned text: TextBlob either
yields a polarity for it or raises while scoring it. -/
inductive SentStep where
  | score (polarity : Rat)
  | fail
deriving DecidableEq

/-- One item returned by the data source for a query: its raw text and
the classification behaviour of the external sentiment library on it. -/
structure Item where
  text : String
  segFault : Bool
  sentences : List SentStep
deriving DecidableEq

/-- The per-tag mutable state of the loop body (lines 55-60): the three
counters, the count of successfully analyzed items, and the corpus list
`text` accumulated for the word cloud. -/
structure TagState where
  positive : Nat
  negative : Nat
  neutral : Nat
  analyzed : Nat
  corpus : List String
deriving DecidableEq

/-- The state at the start of a tag's processing (lines 55-60). -/
def initState : TagState :=
  { positive := 0, negative := 0, neutral := 0, analyzed := 0, corpus := [] }

/-- Classification of one sentence by the sign of its polarity
(lines 71-77): `> 0` positive, `< 0` negative, otherwise neutral. -/
def tallySentence (st : TagState) (polarity : Rat) : TagState :=
  if 0 < polarity then { st with positive := st.positive + 1 }
  else if polarity < 0 then { st with negative := st.negative + 1 }
  else { st with neutral := st.neutral + 1 }

/-- The `for sentence in cleaned_tweet.sentences` loop followed by
`analyzed_tweets += 1` (lines 70-78), inside the `try`: sentences are
scored in order; if scoring raises, the counts already recorded stay
(Python does not roll back `+=`) and `analyzed_tweets` is not
incremented. -/
def processSentences : TagState → List SentStep → TagState
  | st, [] => { st with analyzed := st.analyzed + 1 }
  | st, SentStep.score p :: rest => processSentences (tallySentence st p) rest
  | st, SentStep.fail :: _ => st

/-- The body of `for tweet in Cursor(...).items(...)` (lines 65-80): the
text is cleaned and appended to the corpus, then classified; any raise
skips the rest of the item (`except Exception: continue`). -/
def processItem (st : TagState) (it : Item) : TagState :=
  let st1 := { st with corpus := st.corpus ++ [clean_tweet it.text] }
  if it.segFault then st1 else processSentences st1 it.sentences

/-- `count_per_request` (lines 62-64): 100, except when the remaining
count equals the precomputed `last_window`. -/
def pageSize (target lastWindow analyzed : Nat) : Nat :=
  if target - analyzed = lastWindow then lastWindow else 100

/-- The `while analyzed_tweets < number_of_tweets` loop (lines 61-81).
The data source is the stream of items matching the query, consumed in
page-sized chunks; a page shorter than requested means the source is
exhausted.  The returned `List Nat` is the trace of page sizes passed to
`.items(...)`, and the `List Item` is the unconsumed rest of the source.
`none` means the loop has not terminated within `fuel` iterations. -/
def pageLoop (target lastWindow : Nat) :
    Nat → TagState → List Item → Option (TagState × List Item × List Nat)
  | 0, _, _ => none
  | fuel + 1, st, src =>
    if st.analyzed < target then
      let n := pageSize target lastWindow st.analyzed
      match pageLoop target lastWindow fuel ((src.take n).foldl processItem st) (src.drop n) with
      | none => none
      | some (st', src', reqs) => some (st', src', n :: reqs)
    else
      some (st, src, [])

/-- Processing of one hashtag (lines 54-88): fresh counters, fresh
corpus, `last_window = number_of_tweets % 100`, then the paging loop. -/
def processTag (fuel : Nat) (source : List Item) (target : Nat) : Option TagState :=
  (pageLoop target (target % 100) fuel initState source).map (fun r => r.1)

/-- The `results` dictionary (lines 52, 86-88): one ordered list of
counts per sentiment label, appended to in input-tag order. -/
structure RunResult where
  positive : List Nat
  negative : List Nat
  neutral : List Nat
deriving DecidableEq

/-- The `for hashtag in hashtags` loop (lines 53-88): each tag's final
counters are appended to the three lists, in input order.  `api` maps a
query string to the stream of matching items. -/
def processTags (fuel : Nat) (api : String → List Item) :
    List String → Nat → Option RunResult
  | [], _ => some { positive := [], negative := [], neutral := [] }
  | tag :: rest, target =>
    match processTag fuel (api tag) target, processTags fuel api rest target with
    | some st, some res =>
        some { positive := st.positive :: res.positive,
               negative := st.negative :: res.negative,
               neutral := st.neutral :: res.neutral }
    | _, _ => none

/-- The two possible results of `get_tweets_and_sentiment`: the error
string returned when `setup_twitter()` yields no API handle (line 51),
or the results dictionary (line 89). -/
inductive RunOutcome where
  | setupFailure (msg : String)
  | success (results : RunResult)
deriving DecidableEq

/-- `get_tweets_and_sentiment` (lines 48-89).  `api` is the session
returned by `setup_twitter()`: `none` models a failed credential/session
setup, `some f` an authenticated session whose search yields `f query`. -/
def get_tweets_and_sentiment (fuel : Nat) (api : Option (String → List Item))
    (hashtags : List String) (number_of_tweets : Nat) : Option RunOutcome :=
  match api with
  | none => some (RunOutcome.setupFailure "Twitter setup failed! Please check your credentials!")
  | some api => (processTags fuel api hashtags number_of_tweets).map RunOutcome.success

/-!
## Accounting helpers

Observers of an item's classification behaviour, used to state what the
loop does to the counters.
-/

/-- Number of sentences scored before the first scoring failure (all of
them when no failure occurs). -/
def scoredPre : List SentStep → Nat
  | [] => 0
  | SentStep.score _ :: rest => scoredPre rest + 1
  | SentStep.fail :: _ => 0

/-- Whether scoring raises at some sentence. -/
def hasFailStep : List SentStep → Bool
  | [] => false
  | SentStep.score _ :: rest => hasFailStep rest
  | SentStep.fail :: _ => true

/-- How many sentence classifications an item contributes to the tally. -/
def itemScored (it : Item) : Nat :=
  if it.segFault then 0 else scoredPre it.sentences

/-- Whether the whole item classifies without an exception (so that
`analyzed_tweets` is incremented for it). -/
def classifiedOk (it : Item) : Bool :=
  !it.segFault && !hasFailStep it.sentences

/-- Total sentence classifications contributed by a list of items. -/
def totalScored (l : List Item) : Nat :=
  (l.map itemScored).sum

/-- Number of items of a list that classify without an exception. -/
def countClassified (l : List Item) : Nat :=
  l.countP (fun it => classifiedOk it)

/-- Sum of the three counters of a state. -/
def tallySum (st : TagState) : Nat :=
  st.positive + st.negative + st.neutral

lemma tallySentence_analyzed (st : TagState) (p : Rat) :
    (tallySentence st p).analyzed = st.analyzed := by
  unfold tallySentence
  split_ifs <;> rfl

lemma tallySentence_sum (st : TagState) (p : Rat) :
    tallySum (tallySentence st p) = tallySum st + 1 := by
  unfold tallySentence tallySum
  split_ifs <;> simp <;> omega

lemma processSentences_sum (l : List SentStep) (st : TagState) :
    tallySum (processSentences st l) = tallySum st + scoredPre l := by
  induction l generalizing st with
  | nil => simp [processSentences, scoredPre, tallySum]
  | cons s rest ih =>
    cases s with
    | score p =>
      simp [processSentences, scoredPre, ih, tallySentence_sum]
      omega
    | fail => simp [processSentences, scoredPre]

lemma processSentences_analyzed (l : List SentStep) (st : TagState) :
    (processSentences st l).analyzed =
      st.analyzed + (if hasFailStep l then 0 else 1) := by
  induction l generalizing st with
  | nil => simp [processSentences, hasFailStep]
  | cons s rest ih =>
    cases s with
    | score p => simp [processSentences, hasFailStep, ih, tallySentence_analyzed]
    | fail => simp [processSentences, hasFailStep]

lemma processItem_sum (st : TagState) (it : Item) :
    tallySum (processItem st it) = tallySum st + itemScored it := by
  unfold processItem itemScored
  cases h : it.segFault with
  | true => simp [tallySum]
  | false =>
    have hs := processSentences_sum it.sentences
      { st with corpus := st.corpus ++ [clean_tweet it.text] }
    simpa [tallySum] using hs

lemma processItem_analyzed (st : TagState) (it : Item) :
    (processItem st it).analyzed =
      st.analyzed + (if classifiedOk it then 1 else 0) := by
  unfold processItem classifiedOk
  cases h : it.segFault with
  | true => simp
  | false =>
    simp [processSentences_analyzed]
    cases hf : hasFailStep it.sentences <;> simp

lemma foldl_processItem_sum (l : List Item) (st : TagState) :
    tallySum (l.foldl processItem st) = tallySum st + totalScored l := by
  induction l generalizing st with
  | nil => simp [totalScored]
  | cons it rest ih =>
    simp only [List.foldl_cons, ih, processItem_sum, totalScored, List.map_cons, List.sum_cons]
    omega

lemma foldl_processItem_analyzed (l : List Item) (st : TagState) :
    (l.foldl processItem st).analyzed = st.analyzed + countClassified l := by
  induction l generalizing st with
  | nil => simp [countClassified]
  | cons it rest ih =>
    simp only [List.foldl_cons, ih, processItem_analyzed, countClassified, List.countP_cons]
    cases h : classifiedOk it
    all_goals simp
    all_goals try omega

/-- Once the source is exhausted (no items left) while the target has not
been reached, each iteration of the `while` loop requests a page, gets
nothing back, and leaves the state unchanged: the loop never exits. -/
lemma pageLoop_empty_stuck (target lastWindow : Nat) :
    ∀ (fuel : Nat) (st : TagState), st.analyzed < target →
      pageLoop target lastWindow fuel st [] = none := by
  intro fuel
  induction fuel with
  | zero => intro st h; rfl
  | succ f ih =>
    intro st h
    simp only [pageLoop, if_pos h, List.take_nil, List.foldl_nil, List.drop_nil, ih st h]

/-!
## Normalizer observers and fixed-point lemmas
-/

/-- Whether some position of the input matches one of the three
alternatives of the first `re.sub` pattern. -/
def hasStep1Match : List Char → Bool
  | [] => false
  | c :: cs => (matchStep1 (c :: cs)).isSome || hasStep1Match cs

/-- The shape `sub(r'\W+', ' ', ...)` leaves behind: every character is a
word character or a space, and no two non-word characters are adjacent. -/
def spaced : List Char → Bool
  | [] => true
  | [c] => isWordChar c || c == ' '
  | c :: d :: cs => (isWordChar c || (c == ' ' && isWordChar d)) && spaced (d :: cs)

/-- Whether the two-character sequence `RT` occurs in the input. -/
def hasRT : List Char → Bool
  | [] => false
  | [_] => false
  | c :: d :: cs => (c == 'R' && d == 'T') || hasRT (d :: cs)

/-- A string (as a character list) that all four cleaning passes leave
unchanged. -/
def cleanFixed (cs : List Char) : Bool :=
  !hasStep1Match cs && spaced cs && cs.all (fun c => !(c == '#')) && !hasRT cs

/-- Whether `pat` occurs at the start of the input. -/
def startsWith : List Char → List Char → Bool
  | [], _ => true
  | _ :: _, [] => false
  | p :: ps, c :: cs => p == c && startsWith ps cs

/-- Whether `pat` occurs contiguously somewhere in the input. -/
def hasSub (pat : List Char) : List Char → Bool
  | [] => startsWith pat []
  | c :: cs => startsWith pat (c :: cs) || hasSub pat cs

lemma subUrlsAux_of_no_match :
    ∀ (fuel : Nat) (cs : List Char), hasStep1Match cs = false →
      subUrlsAux fuel cs = cs := by
  intro fuel
  induction fuel with
  | zero => intro cs _; cases cs <;> rfl
  | succ f ih =>
    intro cs h
    cases cs with
    | nil => rfl
    | cons c cs =>
      simp only [hasStep1Match, Bool.or_eq_false_iff] at h
      have hn : matchStep1 (c :: cs) = none :=
        Option.not_isSome_iff_eq_none.mp (by simp [h.1])
      simp only [subUrlsAux, hn, ih cs h.2]

lemma collapseAux_true_of_word (d : Char) (cs : List Char) (hd : isWordChar d = true) :
    collapseAux true (d :: cs) = collapseAux false (d :: cs) := by
  simp only [collapseAux, hd, if_true]

lemma spaced_of_spaced_cons (c : Char) (cs : List Char)
    (h : spaced (c :: cs) = true) : spaced cs = true := by
  cases cs with
  | nil => rfl
  | cons d cs =>
    simp only [spaced, Bool.and_eq_true] at h
    exact h.2

lemma collapseAux_of_spaced :
    ∀ cs : List Char, spaced cs = true → collapseAux false cs = cs := by
  intro cs
  induction cs with
  | nil => intro _; rfl
  | cons c cs ih =>
    intro h
    have htail := spaced_of_spaced_cons c cs h
    cases hw : isWordChar c with
    | true => simp only [collapseAux, hw, if_true, ih htail]
    | false =>
      cases cs with
      | nil =>
        simp only [spaced, hw, Bool.false_or, beq_iff_eq] at h
        subst h
        rfl
      | cons d cs2 =>
        simp only [spaced, hw, Bool.false_or, Bool.and_eq_true, beq_iff_eq] at h
        obtain ⟨⟨hc, hd⟩, _⟩ := h
        subst hc
        have h1 : collapseAux false (' ' :: d :: cs2) = ' ' :: collapseAux true (d :: cs2) := by
          simp [collapseAux, isWordChar]
        rw [h1, collapseAux_true_of_word d cs2 hd, ih htail]

lemma filter_of_all {α : Type} (p : α → Bool) :
    ∀ l : List α, l.all p = true → l.filter p = l := by
  intro l
  induction l with
  | nil => intro _; rfl
  | cons a l ih =>
    intro h
    simp only [List.all_cons, Bool.and_eq_true] at h
    simp only [List.filter_cons, h.1, if_true, ih h.2]

lemma removeRT_of_no_RT : ∀ cs : List Char, hasRT cs = false → removeRT cs = cs := by
  intro cs
  induction cs with
  | nil => intro _; rfl
  | cons c cs ih =>
    intro h
    cases cs with
    | nil => rfl
    | cons d cs2 =>
      simp only [hasRT, Bool.or_eq_false_iff] at h
      simp only [removeRT, h.1, if_false, Bool.false_eq_true]
      rw [ih h.2]

lemma cleanList_of_fixed (cs : List Char) (h : cleanFixed cs = true) :
    cleanList cs = cs := by
  simp only [cleanFixed, Bool.and_eq_true, Bool.not_eq_true'] at h
  obtain ⟨⟨⟨h1, h2⟩, h3⟩, h4⟩ := h
  unfold cleanList subUrls collapseNonWord removeHash
  rw [subUrlsAux_of_no_match cs.length cs h1, collapseAux_of_spaced cs h2,
    filter_of_all _ cs h3, removeRT_of_no_RT cs h4]

/-!
## Character-class lemmas for the cleaned output
-/

lemma collapseAux_chars :
    ∀ (cs : List Char) (flag : Bool) (c : Char), c ∈ collapseAux flag cs →
      isWordChar c = true ∨ c = ' ' := by
  intro cs
  induction cs with
  | nil => intro flag c h; cases h
  | cons a cs ih =>
    intro flag c h
    cases hw : isWordChar a with
    | true =>
      simp only [collapseAux, hw, if_true, List.mem_cons] at h
      rcases h with h | h
      · subst h; exact Or.inl hw
      · exact ih false c h
    | false =>
      cases flag with
      | true =>
        simp only [collapseAux, hw, Bool.false_eq_true, if_false, if_true] at h
        exact ih true c h
      | false =>
        simp only [collapseAux, hw, Bool.false_eq_true, if_false, List.mem_cons] at h
        rcases h with h | h
        · exact Or.inr h
        · exact ih true c h

lemma removeRT_subset_len :
    ∀ (n : Nat) (cs : List Char), cs.length ≤ n → ∀ c : Char, c ∈ removeRT cs → c ∈ cs := by
  intro n
  induction n with
  | zero =>
    intro cs hlen c h
    cases cs with
    | nil => cases h
    | cons a cs => simp at hlen
  | succ m ih =>
    intro cs hlen c h
    cases cs with
    | nil => cases h
    | cons a cs =>
      cases cs with
      | nil => exact h
      | cons d cs2 =>
        simp only [List.length_cons] at hlen
        simp only [removeRT] at h
        split at h
        · have h2 := ih cs2 (by omega) c h
          exact List.mem_cons_of_mem a (List.mem_cons_of_mem d h2)
        · rcases List.mem_cons.mp h with h | h
          · exact h ▸ List.mem_cons_self a (d :: cs2)
          · exact List.mem_cons_of_mem a (ih (d :: cs2) (by simp; omega) c h)

lemma removeRT_subset (cs : List Char) (c : Char) (h : c ∈ removeRT cs) : c ∈ cs :=
  removeRT_subset_len cs.length cs le_rfl c h

lemma clean_tweet_chars (s : String) :
    ∀ c ∈ (clean_tweet s).data, isWordChar c = true ∨ c = ' ' := by
  intro c hc
  have h1 : c ∈ cleanList s.data := hc
  unfold cleanList removeHash collapseNonWord at h1
  have h2 := removeRT_subset _ c h1
  have h3 := List.mem_of_mem_filter h2
  exact collapseAux_chars _ false c h3

/-!
## Loop invariants
-/

lemma totalScored_append (a b : List Item) :
    totalScored (a ++ b) = totalScored a + totalScored b := by
  simp [totalScored]

lemma countClassified_append (a b : List Item) :
    countClassified (a ++ b) = countClassified a + countClassified b := by
  simp [countClassified, List.countP_append]

/-- What one run of the `while` loop does to the counters: the tally sum
grows by exactly the number of sentences scored across the consumed
prefix of the source (including sentences scored before a mid-item
failure), and `analyzed_tweets` grows by exactly the number of items
that classified without an exception. -/
lemma pageLoop_accounting (target lastWindow : Nat) :
    ∀ (fuel : Nat) (st₀ st' : TagState) (src src' : List Item) (reqs : List Nat),
      pageLoop target lastWindow fuel st₀ src = some (st', src', reqs) →
      ∃ consumed : List Item, src = consumed ++ src' ∧
        tallySum st' = tallySum st₀ + totalScored consumed ∧
        st'.analyzed = st₀.analyzed + countClassified consumed := by
  intro fuel
  induction fuel with
  | zero => intro st₀ st' src src' reqs h; cases h
  | succ f ih =>
    intro st₀ st' src src' reqs h
    by_cases hlt : st₀.analyzed < target
    · simp only [pageLoop, if_pos hlt] at h
      cases hrec : pageLoop target lastWindow f
          ((src.take (pageSize target lastWindow st₀.analyzed)).foldl processItem st₀)
          (src.drop (pageSize target lastWindow st₀.analyzed)) with
      | none => rw [hrec] at h; cases h
      | some trip =>
        obtain ⟨st₁', src₁', reqs₁⟩ := trip
        rw [hrec] at h
        simp only [Option.some.injEq, Prod.mk.injEq] at h
        obtain ⟨hst, hsrc, _⟩ := h
        obtain ⟨consumed₁, hsplit, hsum₁, hana₁⟩ := ih _ _ _ _ _ hrec
        refine ⟨src.take (pageSize target lastWindow st₀.analyzed) ++ consumed₁, ?_, ?_, ?_⟩
        · rw [List.append_assoc, ← hsrc, ← hsplit,
            List.take_append_drop (pageSize target lastWindow st₀.analyzed) src]
        · rw [← hst, hsum₁, foldl_processItem_sum, totalScored_append]
          omega
        · rw [← hst, hana₁, foldl_processItem_analyzed, countClassified_append]
          omega
    · simp only [pageLoop, if_neg hlt, Option.some.injEq, Prod.mk.injEq] at h
      obtain ⟨hst, hsrc, _⟩ := h
      exact ⟨[], by simp [hsrc], by simp [← hst, totalScored], by simp [← hst, countClassified]⟩

/-- The sequence of page sizes the claimed policy predicts for a
remaining count `r`: full pages of 100, then the partial page
`lastWindow` (absent when the remainder is zero). -/
def expectedReqs (r lastWindow : Nat) : List Nat :=
  List.replicate (r / 100) 100 ++ (if r = 0 ∨ lastWindow = 0 then [] else [lastWindow])

lemma pageLoop_exit (target lastWindow f : Nat) (st : TagState) (src : List Item)
    (h : ¬ st.analyzed < target) :
    pageLoop target lastWindow (f + 1) st src = some (st, src, []) := by
  simp only [pageLoop, if_neg h]

lemma pageLoop_step (target lastWindow f : Nat) (st : TagState) (src : List Item)
    (h : st.analyzed < target) :
    pageLoop target lastWindow (f + 1) st src =
      match pageLoop target lastWindow f
          ((src.take (pageSize target lastWindow st.analyzed)).foldl processItem st)
          (src.drop (pageSize target lastWindow st.analyzed)) with
      | none => none
      | some (st', src', reqs) =>
          some (st', src', pageSize target lastWindow st.analyzed :: reqs) := by
  simp only [pageLoop, if_pos h]

lemma expectedReqs_step (r lastWindow : Nat) (h1 : 100 ≤ r) (h2 : r % 100 = lastWindow) :
    expectedReqs r lastWindow = 100 :: expectedReqs (r - 100) lastWindow := by
  unfold expectedReqs
  have hdiv : r / 100 = (r - 100) / 100 + 1 := by omega
  rw [hdiv, List.replicate_succ]
  simp only [List.cons_append, List.cons.injEq, true_and]
  by_cases hlw : lastWindow = 0
  · simp [hlw]
  · have hr0 : ¬ (r = 0) := by omega
    have hr100 : ¬ (r - 100 = 0) := by omega
    simp [hr0, hr100, hlw]

lemma countClassified_eq_length (l : List Item)
    (h : ∀ it ∈ l, classifiedOk it = true) : countClassified l = l.length :=
  List.countP_eq_length.mpr h

/-- A failure-free, non-exhausted run follows the page-size policy: with
every item classifying successfully and the source holding at least the
remaining count, the loop requests full pages of 100 and the final
partial page `lastWindow`, then stops exactly at the target. -/
lemma pageLoop_noFail (target lastWindow : Nat) :
    ∀ (fuel : Nat) (st : TagState) (src : List Item),
      (∀ it ∈ src, classifiedOk it = true) →
      st.analyzed ≤ target →
      (target - st.analyzed) % 100 = lastWindow →
      target - st.analyzed ≤ src.length →
      (target - st.analyzed) / 100 + 2 ≤ fuel →
      ∃ st' src', pageLoop target lastWindow fuel st src =
        some (st', src', expectedReqs (target - st.analyzed) lastWindow) ∧
        st'.analyzed = target := by
  intro fuel
  induction fuel with
  | zero => intro st src _ _ _ _ hfuel; omega
  | succ f ih =>
    intro st src hgood hle hmod hlen hfuel
    by_cases hlt : st.analyzed < target
    · by_cases hq : target - st.analyzed = lastWindow
      · -- the final partial page: after it the loop exits
        have hwin : lastWindow < 100 := by omega
        have hn : pageSize target lastWindow st.analyzed = lastWindow := by
          simp [pageSize, hq]
        have hplen : (src.take lastWindow).length = lastWindow := by
          rw [List.length_take]; omega
        have hgoodpage : ∀ it ∈ src.take lastWindow, classifiedOk it = true :=
          fun it hit => hgood it (List.take_subset lastWindow src hit)
        have hana : ((src.take lastWindow).foldl processItem st).analyzed = target := by
          rw [foldl_processItem_analyzed, countClassified_eq_length _ hgoodpage, hplen]
          omega
        obtain ⟨g, rfl⟩ : ∃ g, f = g + 1 := ⟨f - 1, by omega⟩
        refine ⟨(src.take lastWindow).foldl processItem st, src.drop lastWindow, ?_, hana⟩
        rw [pageLoop_step target lastWindow (g + 1) st src hlt, hn,
          pageLoop_exit target lastWindow g ((src.take lastWindow).foldl processItem st)
            (src.drop lastWindow) (by omega), hq]
        have hlw0 : ¬ lastWindow = 0 := by omega
        simp [expectedReqs, (by omega : lastWindow / 100 = 0), hlw0]
      · -- a full page of 100
        have h100 : 100 ≤ target - st.analyzed := by omega
        have hn : pageSize target lastWindow st.analyzed = 100 := by
          simp [pageSize, hq]
        have hplen : (src.take 100).length = 100 := by
          rw [List.length_take]; omega
        have hgoodpage : ∀ it ∈ src.take 100, classifiedOk it = true :=
          fun it hit => hgood it (List.take_subset 100 src hit)
        have hana : ((src.take 100).foldl processItem st).analyzed = st.analyzed + 100 := by
          rw [foldl_processItem_analyzed, countClassified_eq_length _ hgoodpage, hplen]
        obtain ⟨st', src', hpl, hana'⟩ :=
          ih ((src.take 100).foldl processItem st) (src.drop 100)
            (fun it hit => hgood it (List.drop_subset 100 src hit))
            (by omega)
            (by rw [hana]; omega)
            (by rw [hana, List.length_drop]; omega)
            (by rw [hana]; omega)
        refine ⟨st', src', ?_, hana'⟩
        rw [hana, Nat.sub_add_eq] at hpl
        rw [pageLoop_step target lastWindow f st src hlt, hn, hpl,
          expectedReqs_step (target - st.analyzed) lastWindow h100 hmod]
    · have hr : target - st.analyzed = 0 := by omega
      refine ⟨st, src, ?_, by omega⟩
      obtain ⟨g, rfl⟩ : ∃ g, f = g + 1 := ⟨f - 1, by omega⟩
      rw [pageLoop_exit target lastWindow (g + 1) st src hlt, hr]
      simp [expectedReqs]

/-!
## Concrete fixtures used by counterexamples and witnesses
-/

/-- An item whose single sentence scores positively. -/
def goodItem : Item := ⟨"a", false, [SentStep.score 1]⟩

/-- An item with two positively scored sentences. -/
def twoSentenceItem : Item := ⟨"ab", false, [SentStep.score 1, SentStep.score 1]⟩

/-- An item whose first sentence scores and whose second raises. -/
def partialItem : Item := ⟨"t", false, [SentStep.score 1, SentStep.fail]⟩

/-- An item on which classification raises before any sentence is scored. -/
def failItem : Item := ⟨"b", true, []⟩

/-- A source holding only two matching items. -/
def srcExhausted : List Item := [goodItem, goodItem]

/-- A source whose first page contains a failing item. -/
def srcMixed : List Item := [failItem, goodItem, goodItem]

/-- A session whose every search yields one successfully classified item. -/
def apiW : String → List Item := fun _ => [goodItem]

/-!
## Claims
-/

/-- C1 counterexample: for tag processing with `target_per_tag = 1` and a
single item of two positive sentences, the final tally sums to 2, which
exceeds `target_per_tag = 1` and differs from the number of successfully
classified items (1): the counters count sentences, not items. -/
theorem C1_counterexample :
    processTag 3 [twoSentenceItem] 1 = some ⟨2, 0, 0, 1, ["ab"]⟩ ∧
    tallySum ⟨2, 0, 0, 1, ["ab"]⟩ = 2 ∧ ¬ (tallySum ⟨2, 0, 0, 1, ["ab"]⟩ ≤ 1) ∧
    tallySum ⟨2, 0, 0, 1, ["ab"]⟩ ≠ (⟨2, 0, 0, 1, ["ab"]⟩ : TagState).analyzed :=
  ⟨by decide, by decide, by decide, by decide⟩

/-- C1 (amended): at the end of a tag's processing, the sum of the tally
equals the total number of sentences scored across the consumed items
(including sentences scored before a mid-item failure), and
`analyzed_tweets` equals the number of successfully classified items;
neither is bounded by `target_per_tag`. -/
theorem C1_tally_counts_sentences (target fuel : Nat) (src src' : List Item)
    (st' : TagState) (reqs : List Nat)
    (h : pageLoop target (target % 100) fuel initState src = some (st', src', reqs)) :
    ∃ consumed : List Item, src = consumed ++ src' ∧
      st'.positive + st'.negative + st'.neutral = totalScored consumed ∧
      st'.analyzed = countClassified consumed := by
  obtain ⟨consumed, hsplit, hsum, hana⟩ :=
    pageLoop_accounting target (target % 100) fuel initState st' src src' reqs h
  exact ⟨consumed, hsplit, by simpa [tallySum, initState] using hsum,
    by simpa [initState] using hana⟩

/-- C1 witness: the amended claim evaluated on a one-item run. -/
theorem C1_tally_counts_sentences_witness :
    ∃ consumed : List Item, [goodItem] = consumed ++ ([] : List Item) ∧
      (⟨1, 0, 0, 1, ["a"]⟩ : TagState).positive + (⟨1, 0, 0, 1, ["a"]⟩ : TagState).negative +
        (⟨1, 0, 0, 1, ["a"]⟩ : TagState).neutral = totalScored consumed ∧
      (⟨1, 0, 0, 1, ["a"]⟩ : TagState).analyzed = countClassified consumed :=
  C1_tally_counts_sentences 1 3 [goodItem] [] ⟨1, 0, 0, 1, ["a"]⟩ [1] rfl

/-- C2: the source code has no exhaustion check.  With `target = 250` and
a source holding only two matching items, every iteration past the first
requests a page, receives nothing, leaves `analyzed_tweets` unchanged,
and re-enters the loop: for every fuel bound the loop is still running,
so the tag never finalizes early — contrary to the claim that exhaustion
terminates paging with a partial tally. -/
theorem C2_exhaustion_nontermination (fuel : Nat) :
    pageLoop 250 50 fuel initState srcExhausted = none ∧
    processTag fuel srcExhausted 250 = none ∧
    get_tweets_and_sentiment fuel (some (fun _ => srcExhausted)) ["#x"] 250 = none := by
  have hpl : pageLoop 250 50 fuel initState srcExhausted = none := by
    cases fuel with
    | zero => rfl
    | succ f =>
      rw [pageLoop_step 250 50 f initState srcExhausted (by decide),
        (by rfl : srcExhausted.drop (pageSize 250 50 initState.analyzed) = ([] : List Item)),
        pageLoop_empty_stuck 250 50 f
          ((srcExhausted.take (pageSize 250 50 initState.analyzed)).foldl processItem initState)
          (by decide)]
  refine ⟨hpl, ?_, ?_⟩
  · simp [processTag, hpl]
  · simp [get_tweets_and_sentiment, processTags, processTag, hpl]

/-- C3 counterexample: an item whose first sentence scores +1 and whose
second sentence raises leaves `positive` incremented (a partial
per-sentence count is recorded) although the item is not counted as
analyzed — contrary to the claim that a failing item contributes
nothing to the tally. -/
theorem C3_counterexample :
    processItem initState partialItem = ⟨1, 0, 0, 0, ["t"]⟩ ∧ (1 : Nat) ≠ 0 :=
  ⟨by decide, by decide⟩

/-- C3 (amended): when classification raises for an item, the item is not
counted as analyzed and processing continues, but the sentences already
scored before the raise stay in the tally (`itemScored`); only an item
that raises before any sentence is scored contributes nothing. -/
theorem C3_failed_item_keeps_partial_counts (st : TagState) (it : Item)
    (h : it.segFault = true ∨ hasFailStep it.sentences = true) :
    (processItem st it).analyzed = st.analyzed ∧
    tallySum (processItem st it) = tallySum st + itemScored it ∧
    (it.segFault = true → tallySum (processItem st it) = tallySum st) := by
  have hno : classifiedOk it = false := by
    unfold classifiedOk
    rcases h with h | h <;> simp [h]
  refine ⟨?_, processItem_sum st it, ?_⟩
  · rw [processItem_analyzed, hno]; simp
  · intro hseg
    rw [processItem_sum]
    simp [itemScored, hseg]

/-- C3 witness: the amended claim evaluated on the partially failing item. -/
theorem C3_failed_item_keeps_partial_counts_witness :
    (processItem initState partialItem).analyzed = initState.analyzed ∧
    tallySum (processItem initState partialItem) = tallySum initState + itemScored partialItem ∧
    (partialItem.segFault = true →
      tallySum (processItem initState partialItem) = tallySum initState) :=
  C3_failed_item_keeps_partial_counts initState partialItem (Or.inr (by decide))

/-- C4 counterexample: `clean_tweet` is not idempotent: removing the
non-overlapping `RT` occurrences of `"RRTT"` yields `"RT"`, a fresh
retweet marker that a second pass deletes. -/
theorem C4_counterexample :
    clean_tweet "RRTT" = "RT" ∧ clean_tweet (clean_tweet "RRTT") = "" ∧
    clean_tweet (clean_tweet "RRTT") ≠ clean_tweet "RRTT" :=
  ⟨by decide, by decide, by decide⟩

/-- C4 (amended): `clean_tweet` is idempotent exactly on inputs whose
cleaned form none of the four passes would change again: no residual
`www`-shaped or mention/URL token, no adjacent non-word characters, no
hash character, and no `RT` occurrence. -/
theorem C4_idempotent_on_fixed_points (s : String)
    (h : cleanFixed (clean_tweet s).data = true) :
    clean_tweet (clean_tweet s) = clean_tweet s := by
  have h2 : cleanList (clean_tweet s).data = (clean_tweet s).data := cleanList_of_fixed _ h
  show String.mk (cleanList (clean_tweet s).data) = clean_tweet s
  rw [h2]

/-- C4 witness: the amended claim evaluated on an ordinary tweet. -/
theorem C4_idempotent_on_fixed_points_witness :
    cleanFixed (clean_tweet "hello @world news").data = true ∧
    clean_tweet (clean_tweet "hello @world news") = clean_tweet "hello @world news" :=
  ⟨by decide, C4_idempotent_on_fixed_points "hello @world news" (by decide)⟩

/-- C5 counterexample: an input containing a mention token whose cleaned
output still contains the sequence `http`; similarly `www` sequences and
`RT` markers can survive (or be created by) cleaning — contrary to the
claim that outputs contain no `http`/`www` sequence and no `RT` marker. -/
theorem C5_counterexample :
    (matchMention "@a http".data).isSome = true ∧
    clean_tweet "@a http" = " http" ∧
    hasSub "http".data (clean_tweet "@a http").data = true ∧
    hasSub "www".data (clean_tweet "@a wwww").data = true ∧
    hasSub "RT".data (clean_tweet "@a RRTT").data = true :=
  ⟨by decide, by decide, by decide, by decide, by decide⟩

/-- C5 (amended): for every input text, the normalizer's output contains
no `@` character and no `#` character; bare `http`/`www` sequences and
`RT` markers, however, may remain. -/
theorem C5_no_at_no_hash (s : String) :
    (clean_tweet s).data.all (fun c => !(c == '@')) = true ∧
    (clean_tweet s).data.all (fun c => !(c == '#')) = true := by
  constructor <;>
  · rw [List.all_eq_true]
    intro c hc
    rcases clean_tweet_chars s c hc with h | h
    · simp only [Bool.not_eq_true', beq_eq_false_iff_ne]
      intro hEq
      subst hEq
      exact absurd h (by decide)
    · subst h; decide

/-- C6: each sentence is classified by the exact sign of its polarity —
`> 0` positive, `< 0` negative, exactly `0` neutral with no epsilon — so
a text of exactly one sentence with polarity `0` increments only the
neutral counter (besides the analyzed count and the corpus). -/
theorem C6_sign_classification (st : TagState) (txt : String) (p : Rat) :
    processItem st ⟨txt, false, [SentStep.score p]⟩ =
      { positive := if 0 < p then st.positive + 1 else st.positive,
        negative := if p < 0 then st.negative + 1 else st.negative,
        neutral := if p = 0 then st.neutral + 1 else st.neutral,
        analyzed := st.analyzed + 1,
        corpus := st.corpus ++ [clean_tweet txt] } ∧
    (processItem st ⟨txt, false, [SentStep.score 0]⟩).neutral = st.neutral + 1 ∧
    (processItem st ⟨txt, false, [SentStep.score 0]⟩).positive = st.positive ∧
    (processItem st ⟨txt, false, [SentStep.score 0]⟩).negative = st.negative := by
  have key : ∀ q : Rat, processItem st ⟨txt, false, [SentStep.score q]⟩ =
      { positive := if 0 < q then st.positive + 1 else st.positive,
        negative := if q < 0 then st.negative + 1 else st.negative,
        neutral := if q = 0 then st.neutral + 1 else st.neutral,
        analyzed := st.analyzed + 1,
        corpus := st.corpus ++ [clean_tweet txt] } := by
    intro q
    show processSentences { st with corpus := st.corpus ++ [clean_tweet txt] }
        [SentStep.score q] = _
    rcases lt_trichotomy (0 : Rat) q with h | h | h
    · have h2 : ¬ q < 0 := lt_asymm h
      have h3 : ¬ q = 0 := ne_of_gt h
      simp [processSentences, tallySentence, h, h2, h3]
    · have h1 : ¬ 0 < q := by rw [← h]; exact lt_irrefl 0
      have h2 : ¬ q < 0 := by rw [← h]; exact lt_irrefl 0
      have h3 : q = 0 := h.symm
      simp [processSentences, tallySentence, h1, h2, h3]
    · have h1 : ¬ 0 < q := lt_asymm h
      have h3 : ¬ q = 0 := ne_of_lt h
      simp [processSentences, tallySentence, h, h1, h3]
  refine ⟨key p, ?_, ?_, ?_⟩ <;> rw [key 0] <;> simp

/-- C7: when the credential/session provider yields no session
(`setup_twitter()` returned `None`), the run immediately returns the
setup-failure message, for every tag list and target: no tag is
processed and no per-tag output is produced. -/
theorem C7_setup_failure_fast (fuel : Nat) (hashtags : List String)
    (number_of_tweets : Nat) :
    get_tweets_and_sentiment fuel none hashtags number_of_tweets =
      some (RunOutcome.setupFailure "Twitter setup failed! Please check your credentials!") ∧
    ∀ res : RunResult, get_tweets_and_sentiment fuel none hashtags number_of_tweets ≠
      some (RunOutcome.success res) := by
  refine ⟨rfl, fun res h => ?_⟩
  simp [get_tweets_and_sentiment] at h

/-- C8 counterexample: with `target = 2` and one item of the first page
failing to classify, the loop emits the request trace `[2, 100]`: a
non-final page of size 2 (not 100) followed by a final page of size 100
although `target % 100 = 2 ≠ 0` — the claimed page-size policy does not
hold for every per-item success/failure outcome. -/
theorem C8_counterexample :
    (pageLoop 2 (2 % 100) 4 initState srcMixed).map (fun r => r.2.2) = some [2, 100] ∧
    (2 : Nat) % 100 = 2 ∧ (2 : Nat) ≠ 0 ∧ (100 : Nat) ≠ 2 :=
  ⟨by decide, by decide, by decide, by decide⟩

/-- C8 (amended): when every fetched item classifies successfully and the
source holds at least `target` items, the loop requests full pages of
100 followed by a final partial page of `target % 100` (absent when the
remainder is 0), and stops exactly at the target. -/
theorem C8_page_sizes_no_failures (target : Nat) (src : List Item)
    (hgood : ∀ it ∈ src, classifiedOk it = true) (hlen : target ≤ src.length) :
    ∃ st' src', pageLoop target (target % 100) (target / 100 + 2) initState src =
      some (st', src', expectedReqs target (target % 100)) ∧ st'.analyzed = target := by
  have h := pageLoop_noFail target (target % 100) (target / 100 + 2) initState src hgood
    (by simp [initState]) (by simp [initState]) (by simpa [initState] using hlen)
    (by simp [initState])
  simpa [initState] using h

/-- C8 witness: the amended claim evaluated on a one-item source. -/
theorem C8_page_sizes_no_failures_witness :
    ∃ st' src', pageLoop 1 (1 % 100) (1 / 100 + 2) initState [goodItem] =
      some (st', src', expectedReqs 1 (1 % 100)) ∧ st'.analyzed = 1 :=
  C8_page_sizes_no_failures 1 [goodItem] (by decide) (by decide)

/-- C9: when the run completes, each sentiment label's list in the
results dictionary has one entry per input tag, in input order: the
`i`-th entry of each list is the corresponding counter of the `i`-th
tag's final state. -/
theorem C9_result_order (fuel : Nat) (api : String → List Item) (target : Nat) :
    ∀ (tags : List String) (res : RunResult),
      processTags fuel api tags target = some res →
      res.positive.length = tags.length ∧ res.negative.length = tags.length ∧
      res.neutral.length = tags.length ∧
      ∀ i, i < tags.length →
        (processTag fuel (api (tags.getD i "")) target).map TagState.positive =
          some (res.positive.getD i 0) ∧
        (processTag fuel (api (tags.getD i "")) target).map TagState.negative =
          some (res.negative.getD i 0) ∧
        (processTag fuel (api (tags.getD i "")) target).map TagState.neutral =
          some (res.neutral.getD i 0) := by
  intro tags
  induction tags with
  | nil =>
    intro res h
    simp only [processTags, Option.some.injEq] at h
    subst h
    exact ⟨rfl, rfl, rfl, fun i hi => by simp at hi⟩
  | cons t rest ih =>
    intro res h
    simp only [processTags] at h
    cases hst : processTag fuel (api t) target with
    | none => rw [hst] at h; simp at h
    | some st =>
      cases hres : processTags fuel api rest target with
      | none => rw [hst, hres] at h; simp at h
      | some res' =>
        rw [hst, hres] at h
        simp only [Option.some.injEq] at h
        subst h
        obtain ⟨hl1, hl2, hl3, hidx⟩ := ih res' hres
        refine ⟨by simp [hl1], by simp [hl2], by simp [hl3], ?_⟩
        intro i hi
        cases i with
        | zero => refine ⟨?_, ?_, ?_⟩ <;> simp [hst]
        | succ j =>
          have hj : j < rest.length := by simpa using hi
          simpa using hidx j hj

/-- C9 witness: the order property evaluated on a two-tag run. -/
theorem C9_result_order_witness :
    (([1, 1] : List Nat).length = (["x", "y"] : List String).length) ∧
    (processTag 3 (apiW "x") 1).map TagState.positive = some 1 := by
  have h := C9_result_order 3 apiW 1 ["x", "y"] ⟨[1, 1], [0, 0], [0, 0]⟩ rfl
  exact ⟨h.1, (h.2.2.2 0 (by decide)).1⟩

/-- C10: for every input string, every character of the normalizer's
output is a word character (letter, digit, underscore) or a space: every
other character of the input is deleted or replaced by a space. -/
theorem C10_output_word_or_space (s : String) :
    (clean_tweet s).data.all (fun c => isWordChar c || c == ' ') = true := by
  rw [List.all_eq_true]
  intro c hc
  rcases clean_tweet_chars s c hc with h | h
  · simp [h]
  · subst h; decide

end TwitterSA
